import Mathlib

/-!
# Verification of `find-folly` (`probe_folly` in `src/lib.rs`)

A shallow embedding of the `find-folly` crate's single discovery routine
`probe_folly`, together with proofs of the specification's claims about it.

The external world (pkg-config probes, subprocess outputs, the filesystem)
is modelled as an explicit environment; the observable side effects
(`cargo:rustc-link-search` / `cargo:rustc-link-lib` directives, filesystem
existence checks, external invocations) are modelled as explicit traces.
-/

namespace FindFolly

/-! ## Rust `std::path` model (Unix paths)

Rust paths parse into components: an optional leading `RootDir` for absolute
paths, a leading `CurDir` (`.`) kept only at the start of a relative path,
`ParentDir` for `..`, and `Normal` components; empty components and interior
`.` components are dropped. -/

inductive Component where
  | root : Component
  | cur : Component
  | parentDir : Component
  | normal : String → Component
deriving DecidableEq, Repr

/-- Split a character list at every character satisfying `p`
(like `String.splitOn` for a single separator; keeps empty parts). -/
def splitOnPred (p : Char → Bool) : List Char → List (List Char)
  | [] => [[]]
  | c :: cs =>
    let rest := splitOnPred p cs
    if p c then
      [] :: rest
    else
      match rest with
      | [] => [[c]]
      | w :: ws => (c :: w) :: ws

def splitSlash (cs : List Char) : List (List Char) :=
  splitOnPred (fun c => c = '/') cs

/-- One path part (between `/` separators) as a component: empty parts and
`.` parts vanish, `..` is `ParentDir`, anything else is `Normal`. -/
def componentOfPart (p : List Char) : Option Component :=
  if p = [] then none
  else if p = ['.'] then none
  else if p = ['.', '.'] then some Component.parentDir
  else some (Component.normal (String.mk p))

/-- Rust `Path::components()` for Unix paths. -/
def parseComponents (s : String) : List Component :=
  match s.data with
  | [] => []
  | '/' :: _ => Component.root :: (splitSlash s.data).filterMap componentOfPart
  | _ :: _ =>
    match splitSlash s.data with
    | [] => []
    | first :: rest =>
      let tail := rest.filterMap componentOfPart
      if first = ['.'] then Component.cur :: tail
      else
        match componentOfPart first with
        | some comp => comp :: tail
        | none => tail

/-- Rust `Path::parent()`: drop the last component; `None` for the empty
path and for the bare root `/`. -/
def pathParent : List Component → Option (List Component)
  | [] => none
  | [Component.root] => none
  | l => some l.dropLast

/-- Rust `Path::file_name()`: the last component when it is a `Normal`
component, else `None`. -/
def pathFileName (l : List Component) : Option String :=
  match l.getLast? with
  | some (Component.normal s) => some s
  | _ => none

/-- Index of the last `.` in a character list, if any. -/
def lastDotIdx : List Char → Option Nat
  | [] => none
  | c :: cs =>
    match lastDotIdx cs with
    | some i => some (i + 1)
    | none => if c = '.' then some 0 else none

/-- Rust's file-name/extension split applied to a file name: the stem is the
part before the last `.`, except that a name whose only `.` is leading (such
as `.gitignore`) is all stem. -/
def fileStemOfName (name : String) : String :=
  match lastDotIdx name.data with
  | none => name
  | some 0 => name
  | some i => String.mk (name.data.take i)

/-- Rust `Path::file_stem()`. -/
def pathFileStem (l : List Component) : Option String :=
  (pathFileName l).map fileStemOfName

/-- Render a component list back to a path string (components joined by
`/`, absolute paths prefixed by `/`). This is how the embedding displays a
derived path (Rust's `Display`/`to_string_lossy` on the corresponding
sub-path). -/
def renderComponent : Component → String
  | Component.root => "/"
  | Component.cur => "."
  | Component.parentDir => ".."
  | Component.normal s => s

def renderPath : List Component → String
  | Component.root :: rest => "/" ++ String.intercalate "/" (rest.map renderComponent)
  | comps => String.intercalate "/" (comps.map renderComponent)

/-- Rust `Path::starts_with`: component-wise prefix. -/
def pathStartsWith (l base : List Component) : Bool := base.isPrefixOf l

/-- Rust `Path::ends_with`: component-wise suffix. -/
def pathEndsWith (l child : List Component) : Bool := child.isSuffixOf l

/-! ## Rust `str` helpers -/

/-- Rust `str::starts_with` on string literals. -/
def strStartsWith (s p : String) : Bool := p.data.isPrefixOf s.data

/-- Drop the first `n` characters (the remainder after a successful
`str::strip_prefix` of an `n`-character prefix). -/
def strDrop (s : String) (n : Nat) : String := String.mk (s.data.drop n)

/-- Rust `str::split_whitespace`: split on whitespace, dropping empty
tokens. -/
def splitWhitespace (s : String) : List String :=
  ((splitOnPred Char.isWhitespace s.data).filter (fun w => ¬ w = [])).map String.mk

/-! ## Build-system directives (the `cargo:` lines printed by the crate) -/

inductive Directive where
  | linkSearch : String → Directive
  | linkLib : String → Directive
deriving DecidableEq, Repr

/-! ## Step B: parsing the shell-tokenized `pkg-config --static --libs libfolly` output

The loop body of `probe_folly` for one token: a `-L` token records a library
search directory, a `-l` token emits a link-lib directive, other `-` tokens
are ignored, and a bare token is treated as a path whose `lib`-prefixed file
stem yields a search directive for the parent and a link-lib directive for
the stripped stem. The loop body reads no accumulated state, so the result
of the whole loop is the concatenation of per-token contributions. -/
def processLibsToken (arg : String) : List String × List Directive :=
  if strStartsWith arg "-" then
    if strStartsWith arg "-L" then ([strDrop arg 2], [])
    else if strStartsWith arg "-l" then ([], [Directive.linkLib (strDrop arg 2)])
    else ([], [])
  else
    let path := parseComponents arg
    match pathParent path, pathFileStem path with
    | some parent, some lib_name =>
      if strStartsWith lib_name "lib" then
        ([], [Directive.linkSearch (renderPath parent), Directive.linkLib (strDrop lib_name 3)])
      else ([], [])
    | _, _ => ([], [])

/-- Step B over the whole token list: accumulated `lib_dirs` and the emitted
directives, in order. -/
def stepB : List String → List String × List Directive
  | [] => ([], [])
  | arg :: args =>
    let head := processLibsToken arg
    let rest := stepB args
    (head.1 ++ rest.1, head.2 ++ rest.2)

/-! ## Shell tokenization -/

inductive ShState where
  | normal : ShState
  | single : ShState
  | double : ShState
deriving DecidableEq, Repr

/-- Modelled from the spec: the shell-style tokenizer applied to the
linker-flags output (the external `shlex` crate, not part of this
repository's sources) — "a small shell-style tokenizer (handling
quoting/escaping) distinct from plain whitespace splitting". Whitespace
separates tokens; single quotes are literal; double quotes group with
backslash escapes; a backslash escapes the next character. An unterminated
quote or trailing backslash simply ends the input here (not exercised by
any claim). -/
def shlexGo : ShState → Option (List Char) → List String → List Char → List String
  | _, none, acc, [] => acc.reverse
  | _, some w, acc, [] => (String.mk w.reverse :: acc).reverse
  | ShState.normal, cur, acc, c :: cs =>
    if c.isWhitespace then
      match cur with
      | none => shlexGo ShState.normal none acc cs
      | some w => shlexGo ShState.normal none (String.mk w.reverse :: acc) cs
    else if c = '\'' then shlexGo ShState.single (some (cur.getD [])) acc cs
    else if c = '"' then shlexGo ShState.double (some (cur.getD [])) acc cs
    else if c = '\\' then
      match cs with
      | [] => shlexGo ShState.normal cur acc []
      | d :: cs2 => shlexGo ShState.normal (some (d :: cur.getD [])) acc cs2
    else shlexGo ShState.normal (some (c :: cur.getD [])) acc cs
  | ShState.single, cur, acc, c :: cs =>
    if c = '\'' then shlexGo ShState.normal (some (cur.getD [])) acc cs
    else shlexGo ShState.single (some (c :: cur.getD [])) acc cs
  | ShState.double, cur, acc, c :: cs =>
    if c = '"' then shlexGo ShState.normal (some (cur.getD [])) acc cs
    else if c = '\\' then
      match cs with
      | [] => shlexGo ShState.double cur acc []
      | d :: cs2 => shlexGo ShState.double (some (d :: cur.getD [])) acc cs2
    else shlexGo ShState.double (some (c :: cur.getD [])) acc cs

def shlexTokens (s : String) : List String :=
  shlexGo ShState.normal none [] s.data

/-! ## Step C: locating `boost_context` in the recorded lib dirs

The observable behaviour of the Step C loop is recorded as an event trace:
each `cargo:` directive printed and each filesystem existence check
performed, in order. -/

inductive CEvent where
  | emit : Directive → CEvent
  | check : String → String → CEvent
deriving DecidableEq, Repr

/-- The Step C loop of `probe_folly`, carrying the `found_boost_context`
flag. For each recorded lib dir, the search directive is printed first;
then, unless the library was already found, `lib<name>.a` is tested for the
two variant names in order, emitting a link-lib directive and setting the
flag on the first hit. `fs dir file` models `Path::exists()` of
`<dir>/<file>`. -/
def stepC (fs : String → String → Bool) : Bool → List String → Bool × List CEvent
  | found, [] => (found, [])
  | found, dir :: dirs =>
    if found then
      let rest := stepC fs true dirs
      (rest.1, CEvent.emit (Directive.linkSearch dir) :: rest.2)
    else if fs dir "libboost_context.a" then
      let rest := stepC fs true dirs
      (rest.1,
        CEvent.emit (Directive.linkSearch dir) ::
        CEvent.check dir "libboost_context.a" ::
        CEvent.emit (Directive.linkLib "boost_context") :: rest.2)
    else if fs dir "libboost_context-mt.a" then
      let rest := stepC fs true dirs
      (rest.1,
        CEvent.emit (Directive.linkSearch dir) ::
        CEvent.check dir "libboost_context.a" ::
        CEvent.check dir "libboost_context-mt.a" ::
        CEvent.emit (Directive.linkLib "boost_context-mt") :: rest.2)
    else
      let rest := stepC fs false dirs
      (rest.1,
        CEvent.emit (Directive.linkSearch dir) ::
        CEvent.check dir "libboost_context.a" ::
        CEvent.check dir "libboost_context-mt.a" :: rest.2)

/-- The directives printed in an event trace, in order. -/
def eventsDirectives (evs : List CEvent) : List Directive :=
  evs.filterMap fun e =>
    match e with
    | CEvent.emit d => some d
    | CEvent.check _ _ => none

/-- The filesystem existence checks performed in an event trace, in order. -/
def eventsChecks (evs : List CEvent) : List (String × String) :=
  evs.filterMap fun e =>
    match e with
    | CEvent.emit _ => none
    | CEvent.check dir file => some (dir, file)

/-! ## Step D: parsing `pkg-config --static --cflags libfolly` output -/

def sdkPrefix : List Component :=
  parseComponents "/Library/Developer/CommandLineTools/SDKs"

def usrIncludeSuffix : List Component :=
  parseComponents "usr/include"

/-- The Step D loop body for one whitespace token, returning the additions
to `include_paths` and to `other_cflags`; `none` models a panic of one of
the two `unwrap` calls in the SDK-rewrite branch. A `-I` token under the
recognised macOS SDK prefix ending in `usr/include` becomes the two flags
`-isysroot <grandparent>`; any other `-I` token becomes a verbatim include
path; other tokens are ignored. -/
def processCflagToken (arg : String) : Option (List String × List String) :=
  if strStartsWith arg "-I" then
    let rest := strDrop arg 2
    let path := parseComponents rest
    if pathStartsWith path sdkPrefix && pathEndsWith path usrIncludeSuffix then
      match pathParent path with
      | none => none
      | some p1 =>
        match pathParent p1 with
        | none => none
        | some sysroot => some ([], ["-isysroot", renderPath sysroot])
    else some ([rest], [])
  else some ([], [])

/-- Step D over the whole token list (the loop body reads no accumulated
state, so the loop is the concatenation of per-token contributions);
`none` models a panic at some token. -/
def stepD : List String → Option (List String × List String)
  | [] => some ([], [])
  | arg :: args =>
    match processCflagToken arg, stepD args with
    | some head, some rest => some (head.1 ++ rest.1, head.2 ++ rest.2)
    | _, _ => none

/-! ## The top-level `probe_folly` -/

/-- The aggregate result (`struct Folly`). -/
structure Folly where
  lib_dirs : List String
  include_paths : List String
  other_cflags : List String
deriving DecidableEq, Repr

/-- The error type `enum FollyError`. The payloads of the underlying `pkg_config::Error` /
`std::io::Error` values are abstracted as numeric codes. -/
inductive FollyError where
  | FmtDependency : Nat → FollyError
  | GflagsDependency : Nat → FollyError
  | MainPackage : Nat → FollyError
  | BoostContext : FollyError
deriving DecidableEq, Repr

/-- A subprocess's captured standard output: either valid UTF-8 text or
not. -/
inductive Utf8Out where
  | utf8 : String → Utf8Out
  | invalid : Utf8Out
deriving DecidableEq, Repr

/-- An external invocation performed by `probe_folly`: a `pkg_config`
crate probe (with its static flag), or a manual `pkg-config` subprocess
run with the given arguments. -/
inductive ExtCall where
  | pkgProbe : String → Bool → ExtCall
  | runPkgConfig : List String → ExtCall
deriving DecidableEq, Repr

/-- The host environment: responses to the external interactions
`probe_folly` can perform. Launch failures are `Except.error` with an
abstract I/O error code. -/
structure Env where
  fmtProbe : Except Nat Unit
  gflagsProbe : Except Nat Unit
  libsOutput : Except Nat Utf8Out
  cflagsOutput : Except Nat Utf8Out
  fsExists : String → String → Bool

/-- How a call to `probe_folly` terminates: normally (`Ok`), with a
`FollyError` (`Err`), or by panicking. -/
inductive ProbeOutcome where
  | ok : Folly → ProbeOutcome
  | error : FollyError → ProbeOutcome
  | panicked : String → ProbeOutcome
deriving DecidableEq, Repr

/-- One full run: the outcome plus the directives printed and the external
calls made, in order. -/
structure ProbeRun where
  outcome : ProbeOutcome
  directives : List Directive
  calls : List ExtCall
deriving DecidableEq, Repr

/-- The panic message of the two `expect` calls on `String::from_utf8`
(the source uses this same literal for both the `--libs` and `--cflags`
outputs). -/
def utf8PanicMsg : String := "`pkg-config --libs` wasn't UTF-8!"

/-- The panic message standing for a failed `Option::unwrap()` in the
SDK-rewrite branch. -/
def unwrapPanicMsg : String := "called Option.unwrap on a None value"

def libsArgs : List String := ["--static", "--libs", "libfolly"]

def cflagsArgs : List String := ["--static", "--cflags", "libfolly"]

/-- The discovery routine `probe_folly`: Step A (fmt then gflags probes, static mode, each
failure aborting with its tagged error), Step B (spawn
`pkg-config --static --libs libfolly`, decode, shell-tokenize, parse),
Step C (emit search dirs, locate `boost_context`, `Err(BoostContext)` if
absent), Step D (spawn `pkg-config --static --cflags libfolly`, decode,
parse include flags), then `Ok`. -/
def probe_folly (env : Env) : ProbeRun :=
  match env.fmtProbe with
  | Except.error e =>
    ⟨ProbeOutcome.error (FollyError.FmtDependency e), [], [ExtCall.pkgProbe "fmt" true]⟩
  | Except.ok _ =>
    match env.gflagsProbe with
    | Except.error e =>
      ⟨ProbeOutcome.error (FollyError.GflagsDependency e), [],
        [ExtCall.pkgProbe "fmt" true, ExtCall.pkgProbe "gflags" true]⟩
    | Except.ok _ =>
      let calls0 : List ExtCall :=
        [ExtCall.pkgProbe "fmt" true, ExtCall.pkgProbe "gflags" true,
          ExtCall.runPkgConfig libsArgs]
      match env.libsOutput with
      | Except.error e => ⟨ProbeOutcome.error (FollyError.MainPackage e), [], calls0⟩
      | Except.ok Utf8Out.invalid => ⟨ProbeOutcome.panicked utf8PanicMsg, [], calls0⟩
      | Except.ok (Utf8Out.utf8 out) =>
        let sb := stepB (shlexTokens out)
        let sc := stepC env.fsExists false sb.1
        let ds := sb.2 ++ eventsDirectives sc.2
        if sc.1 then
          let calls1 := calls0 ++ [ExtCall.runPkgConfig cflagsArgs]
          match env.cflagsOutput with
          | Except.error e => ⟨ProbeOutcome.error (FollyError.MainPackage e), ds, calls1⟩
          | Except.ok Utf8Out.invalid => ⟨ProbeOutcome.panicked utf8PanicMsg, ds, calls1⟩
          | Except.ok (Utf8Out.utf8 out2) =>
            match stepD (splitWhitespace out2) with
            | none => ⟨ProbeOutcome.panicked unwrapPanicMsg, ds, calls1⟩
            | some d =>
              ⟨ProbeOutcome.ok ⟨sb.1, d.1, d.2⟩, ds, calls1⟩
        else ⟨ProbeOutcome.error FollyError.BoostContext, ds, calls0⟩

/-! ## Helper lemmas -/

theorem strStartsWith_dash_of_dashL {t : String} (h : strStartsWith t "-L" = true) :
    strStartsWith t "-" = true := by
  unfold strStartsWith at h ⊢
  rw [ List.isPrefixOf_iff_prefix] at h ⊢
  have hL : "-L".data = ['-', 'L'] := rfl
  have hm : "-".data = ['-'] := rfl
  rw [hL] at h
  rw [hm]
  obtain ⟨u, hu⟩ := h
  exact ⟨'L' :: u, by simpa using hu⟩

theorem processLibsToken_fst (t : String) :
    (processLibsToken t).1 =
      if strStartsWith t "-L" then [strDrop t 2] else [] := by
  unfold processLibsToken
  by_cases hL : strStartsWith t "-L" = true
  · rw [strStartsWith_dash_of_dashL hL]
    simp [hL]
  · simp only [Bool.not_eq_true] at hL
    by_cases hD : strStartsWith t "-" = true
    · by_cases hl : strStartsWith t "-l" = true <;> simp [hD, hL, hl]
    · simp only [Bool.not_eq_true] at hD
      simp only [hD, hL, Bool.false_eq_true, if_false]
      split
      · split <;> rfl
      · rfl

/-- Claim C1: in Step B, each `-L` token contributes exactly its remainder
to `lib_dirs`, in token order, and no other token kind contributes. -/
theorem stepB_lib_dirs_from_dashL (toks : List String) :
    (stepB toks).1 = toks.filterMap
      (fun t => if strStartsWith t "-L" then some (strDrop t 2) else none) := by
  induction toks with
  | nil => rfl
  | cons t ts ih =>
    simp only [stepB, ih, List.filterMap_cons]
    by_cases h : strStartsWith t "-L" = true <;> simp [processLibsToken_fst, h]

/-- Claim C2: a bare token with a parent and a `lib`-prefixed file stem
yields exactly one search-directory directive for the parent and one
link-lib directive for the stripped stem (and nothing in `lib_dirs`);
a bare token whose stem does not start with `lib` contributes nothing. -/
theorem stepB_bare_token (t : String) (par : List Component) (stem : String)
    (hd : strStartsWith t "-" = false)
    (hp : pathParent (parseComponents t) = some par)
    (hs : pathFileStem (parseComponents t) = some stem) :
    (strStartsWith stem "lib" = true →
      processLibsToken t =
        ([], [Directive.linkSearch (renderPath par),
              Directive.linkLib (strDrop stem 3)])) ∧
    (strStartsWith stem "lib" = false → processLibsToken t = ([], [])) := by
  unfold processLibsToken
  simp only [hd, Bool.false_eq_true, if_false, hp, hs]
  constructor <;> intro h <;> simp [h]

/-- Witness for C2 at the bare token `/opt/folly/lib/libdouble-conversion.a`
(and, for the second branch, `/opt/folly/lib/notalib.a`). -/
theorem stepB_bare_token_witness :
    processLibsToken "/opt/folly/lib/libdouble-conversion.a" =
      ([], [Directive.linkSearch "/opt/folly/lib",
            Directive.linkLib "double-conversion"]) ∧
    processLibsToken "/opt/folly/lib/notalib.a" = ([], []) := by
  constructor
  · have h := (stepB_bare_token "/opt/folly/lib/libdouble-conversion.a"
        (parseComponents "/opt/folly/lib") "libdouble-conversion"
        (by decide) (by decide) (by decide)).1 (by decide)
    exact h.trans (by decide)
  · exact (stepB_bare_token "/opt/folly/lib/notalib.a"
        (parseComponents "/opt/folly/lib") "notalib"
        (by decide) (by decide) (by decide)).2 (by decide)

/-- The dirs of the `linkSearch` directives in a directive list, in order. -/
def searchDirsOf (ds : List Directive) : List String :=
  ds.filterMap fun d =>
    match d with
    | Directive.linkSearch p => some p
    | Directive.linkLib _ => none

/-- The names of the `linkLib` directives in a directive list, in order. -/
def linkLibsOf (ds : List Directive) : List String :=
  ds.filterMap fun d =>
    match d with
    | Directive.linkSearch _ => none
    | Directive.linkLib n => some n

theorem stepC_found (fs : String → String → Bool) (dirs : List String) :
    stepC fs true dirs =
      (true, dirs.map fun d => CEvent.emit (Directive.linkSearch d)) := by
  induction dirs with
  | nil => rfl
  | cons d ds ih => simp [stepC, ih]

theorem stepC_all_missing (fs : String → String → Bool) (dirs : List String)
    (h : ∀ d ∈ dirs, fs d "libboost_context.a" = false ∧
      fs d "libboost_context-mt.a" = false) :
    stepC fs false dirs =
      (false, dirs.flatMap fun d =>
        [CEvent.emit (Directive.linkSearch d),
         CEvent.check d "libboost_context.a",
         CEvent.check d "libboost_context-mt.a"]) := by
  induction dirs with
  | nil => rfl
  | cons d ds ih =>
    obtain ⟨h1, h2⟩ := h d (by simp)
    have ih' := ih fun x hx => h x (by simp [hx])
    simp [stepC, h1, h2, ih']

theorem stepC_found_at (fs : String → String → Bool) (pre : List String)
    (d : String) (post : List String)
    (hpre : ∀ p ∈ pre, fs p "libboost_context.a" = false ∧
      fs p "libboost_context-mt.a" = false)
    (hd : fs d "libboost_context.a" = true ∨ fs d "libboost_context-mt.a" = true) :
    stepC fs false (pre ++ d :: post) =
      (true,
        (pre.flatMap fun p =>
          [CEvent.emit (Directive.linkSearch p),
           CEvent.check p "libboost_context.a",
           CEvent.check p "libboost_context-mt.a"]) ++
        (if fs d "libboost_context.a" then
          [CEvent.emit (Directive.linkSearch d),
           CEvent.check d "libboost_context.a",
           CEvent.emit (Directive.linkLib "boost_context")]
         else
          [CEvent.emit (Directive.linkSearch d),
           CEvent.check d "libboost_context.a",
           CEvent.check d "libboost_context-mt.a",
           CEvent.emit (Directive.linkLib "boost_context-mt")]) ++
        (post.map fun p => CEvent.emit (Directive.linkSearch p))) := by
  induction pre with
  | nil =>
    by_cases hA : fs d "libboost_context.a" = true
    · simp [stepC, hA, stepC_found]
    · simp only [Bool.not_eq_true] at hA
      have hB : fs d "libboost_context-mt.a" = true := by
        rcases hd with h | h
        · rw [hA] at h; exact absurd h (by simp)
        · exact h
      simp [stepC, hA, hB, stepC_found]
  | cons p ps ih =>
    obtain ⟨h1, h2⟩ := hpre p (by simp)
    have ih' := ih fun x hx => hpre x (by simp [hx])
    simp only [List.cons_append, stepC, h1, h2, Bool.false_eq_true, if_false,
      List.append_eq]
    rw [ih']
    simp [List.append_assoc]

theorem eventsChecks_append (l1 l2 : List CEvent) :
    eventsChecks (l1 ++ l2) = eventsChecks l1 ++ eventsChecks l2 := by
  simp [eventsChecks]

theorem eventsDirectives_append (l1 l2 : List CEvent) :
    eventsDirectives (l1 ++ l2) = eventsDirectives l1 ++ eventsDirectives l2 := by
  simp [eventsDirectives]

theorem linkLibsOf_append (l1 l2 : List Directive) :
    linkLibsOf (l1 ++ l2) = linkLibsOf l1 ++ linkLibsOf l2 := by
  simp [linkLibsOf]

theorem searchDirsOf_append (l1 l2 : List Directive) :
    searchDirsOf (l1 ++ l2) = searchDirsOf l1 ++ searchDirsOf l2 := by
  simp [searchDirsOf]

theorem eventsChecks_preBlock (pre : List String) :
    eventsChecks (pre.flatMap fun p =>
      [CEvent.emit (Directive.linkSearch p),
       CEvent.check p "libboost_context.a",
       CEvent.check p "libboost_context-mt.a"]) =
    pre.flatMap fun p =>
      [(p, "libboost_context.a"), (p, "libboost_context-mt.a")] := by
  induction pre <;> simp_all [eventsChecks]

theorem eventsDirectives_preBlock (pre : List String) :
    eventsDirectives (pre.flatMap fun p =>
      [CEvent.emit (Directive.linkSearch p),
       CEvent.check p "libboost_context.a",
       CEvent.check p "libboost_context-mt.a"]) =
    pre.map Directive.linkSearch := by
  induction pre <;> simp_all [eventsDirectives]

theorem eventsChecks_postMap (post : List String) :
    eventsChecks (post.map fun p => CEvent.emit (Directive.linkSearch p)) = [] := by
  induction post <;> simp_all [eventsChecks]

theorem eventsDirectives_postMap (post : List String) :
    eventsDirectives (post.map fun p => CEvent.emit (Directive.linkSearch p)) =
      post.map Directive.linkSearch := by
  induction post <;> simp_all [eventsDirectives]

theorem linkLibsOf_searchMap (l : List String) :
    linkLibsOf (l.map Directive.linkSearch) = [] := by
  induction l <;> simp_all [linkLibsOf]

theorem searchDirsOf_searchMap (l : List String) :
    searchDirsOf (l.map Directive.linkSearch) = l := by
  induction l <;> simp_all [searchDirsOf]

/-- Claim C3: the boost_context search visits lib dirs in recorded order,
tests `libboost_context.a` before `libboost_context-mt.a` inside each, and
on the first hit emits exactly one link-lib directive for the matched
variant and checks nothing in later directories. -/
theorem stepC_variant_search_order (fs : String → String → Bool)
    (pre : List String) (d : String) (post : List String)
    (hpre : ∀ p ∈ pre, fs p "libboost_context.a" = false ∧
      fs p "libboost_context-mt.a" = false)
    (hd : fs d "libboost_context.a" = true ∨ fs d "libboost_context-mt.a" = true) :
    (stepC fs false (pre ++ d :: post)).1 = true ∧
    eventsChecks (stepC fs false (pre ++ d :: post)).2 =
      (pre.flatMap fun p =>
        [(p, "libboost_context.a"), (p, "libboost_context-mt.a")]) ++
      (if fs d "libboost_context.a" then [(d, "libboost_context.a")]
       else [(d, "libboost_context.a"), (d, "libboost_context-mt.a")]) ∧
    linkLibsOf (eventsDirectives (stepC fs false (pre ++ d :: post)).2) =
      [if fs d "libboost_context.a" then "boost_context" else "boost_context-mt"] := by
  rw [stepC_found_at fs pre d post hpre hd]
  refine ⟨rfl, ?_, ?_⟩
  · rw [eventsChecks_append, eventsChecks_append, eventsChecks_preBlock,
      eventsChecks_postMap]
    by_cases hA : fs d "libboost_context.a" = true <;> simp [hA, eventsChecks]
  · rw [eventsDirectives_append, eventsDirectives_append, eventsDirectives_preBlock,
      eventsDirectives_postMap, linkLibsOf_append, linkLibsOf_append,
      linkLibsOf_searchMap, linkLibsOf_searchMap]
    by_cases hA : fs d "libboost_context.a" = true <;>
      simp [hA, eventsDirectives, linkLibsOf]

/-- The filesystem of the spec's end-to-end scenario: of the two recorded
directories only the second contains `libboost_context-mt.a`. -/
def bcFsScenario : String → String → Bool :=
  fun dir file => dir == "/d2" && file == "libboost_context-mt.a"

/-- Witness for C3: the spec's two-directory scenario. -/
theorem stepC_variant_search_order_witness :
    (stepC bcFsScenario false ["/d1", "/d2"]).1 = true ∧
    eventsChecks (stepC bcFsScenario false ["/d1", "/d2"]).2 =
      [("/d1", "libboost_context.a"), ("/d1", "libboost_context-mt.a"),
       ("/d2", "libboost_context.a"), ("/d2", "libboost_context-mt.a")] ∧
    linkLibsOf (eventsDirectives (stepC bcFsScenario false ["/d1", "/d2"]).2) =
      ["boost_context-mt"] := by
  have h := stepC_variant_search_order bcFsScenario ["/d1"] "/d2" []
    (by decide) (by decide)
  exact ⟨h.1, h.2.1.trans (by decide), h.2.2.trans (by decide)⟩

theorem eventsDirectives_cons_emit (d : Directive) (evs : List CEvent) :
    eventsDirectives (CEvent.emit d :: evs) = d :: eventsDirectives evs := by
  simp [eventsDirectives]

theorem eventsDirectives_cons_check (dir file : String) (evs : List CEvent) :
    eventsDirectives (CEvent.check dir file :: evs) = eventsDirectives evs := by
  simp [eventsDirectives]

theorem searchDirsOf_cons_search (p : String) (ds : List Directive) :
    searchDirsOf (Directive.linkSearch p :: ds) = p :: searchDirsOf ds := by
  simp [searchDirsOf]

theorem searchDirsOf_cons_lib (n : String) (ds : List Directive) :
    searchDirsOf (Directive.linkLib n :: ds) = searchDirsOf ds := by
  simp [searchDirsOf]

theorem stepC_searchDirs (fs : String → String → Bool) (b : Bool)
    (dirs : List String) :
    searchDirsOf (eventsDirectives (stepC fs b dirs).2) = dirs := by
  induction dirs generalizing b with
  | nil => cases b <;> rfl
  | cons d ds ih =>
    cases b
    · by_cases hA : fs d "libboost_context.a" = true
      · simp [stepC, hA, eventsDirectives_cons_emit, eventsDirectives_cons_check,
          searchDirsOf_cons_search, searchDirsOf_cons_lib, ih]
      · by_cases hB : fs d "libboost_context-mt.a" = true <;>
          simp [stepC, hA, hB, eventsDirectives_cons_emit,
            eventsDirectives_cons_check, searchDirsOf_cons_search,
            searchDirsOf_cons_lib, ih]
    · simp [stepC, eventsDirectives_cons_emit, searchDirsOf_cons_search, ih]

/-- Claim C6: every lib dir recorded in Step B is emitted by Step C as a
search-directory directive exactly once, in recorded order; and the
search directive for the directory holding the found variant precedes the
variant's link-lib directive. -/
theorem stepC_search_directive_once_and_ordered :
    (∀ (fs : String → String → Bool) (b : Bool) (dirs : List String),
      searchDirsOf (eventsDirectives (stepC fs b dirs).2) = dirs) ∧
    (∀ (fs : String → String → Bool) (pre : List String) (d : String)
        (post : List String),
      (∀ p ∈ pre, fs p "libboost_context.a" = false ∧
        fs p "libboost_context-mt.a" = false) →
      (fs d "libboost_context.a" = true ∨ fs d "libboost_context-mt.a" = true) →
      eventsDirectives (stepC fs false (pre ++ d :: post)).2 =
        pre.map Directive.linkSearch ++
        (Directive.linkSearch d ::
          Directive.linkLib
            (if fs d "libboost_context.a" then "boost_context"
             else "boost_context-mt") ::
          post.map Directive.linkSearch)) := by
  refine ⟨stepC_searchDirs, ?_⟩
  intro fs pre d post hpre hd
  rw [stepC_found_at fs pre d post hpre hd]
  rw [eventsDirectives_append, eventsDirectives_append, eventsDirectives_preBlock,
    eventsDirectives_postMap]
  by_cases hA : fs d "libboost_context.a" = true <;> simp [hA, eventsDirectives]

/-- A filesystem where the first of two directories holds
`libboost_context.a`. -/
def bcFsFirst : String → String → Bool :=
  fun dir file => dir == "/p" && file == "libboost_context.a"

/-- Witness for C6: first directory holds the plain variant; its search
directive precedes the link directive, and both dirs are emitted once. -/
theorem stepC_search_directive_once_and_ordered_witness :
    searchDirsOf (eventsDirectives (stepC bcFsFirst false ["/p", "/q"]).2) =
      ["/p", "/q"] ∧
    eventsDirectives (stepC bcFsFirst false ["/p", "/q"]).2 =
      [Directive.linkSearch "/p", Directive.linkLib "boost_context",
       Directive.linkSearch "/q"] := by
  refine ⟨stepC_search_directive_once_and_ordered.1 bcFsFirst false ["/p", "/q"], ?_⟩
  have h := stepC_search_directive_once_and_ordered.2 bcFsFirst [] "/p" ["/q"]
    (by decide) (by decide)
  exact h.trans (by decide)

/-- Claim C4: when no recorded lib dir contains either `boost_context`
variant (including an empty `lib_dirs`), `probe_folly` fails with
`FollyError.BoostContext` and returns no `Folly` aggregate. -/
theorem probe_folly_boost_context_error (env : Env) (out : String)
    (hfmt : env.fmtProbe = Except.ok ())
    (hgf : env.gflagsProbe = Except.ok ())
    (hlibs : env.libsOutput = Except.ok (Utf8Out.utf8 out))
    (hmiss : ∀ d ∈ (stepB (shlexTokens out)).1,
      env.fsExists d "libboost_context.a" = false ∧
      env.fsExists d "libboost_context-mt.a" = false) :
    (probe_folly env).outcome = ProbeOutcome.error FollyError.BoostContext ∧
    ∀ f, (probe_folly env).outcome ≠ ProbeOutcome.ok f := by
  have hsc := stepC_all_missing env.fsExists (stepB (shlexTokens out)).1 hmiss
  have hout : (probe_folly env).outcome = ProbeOutcome.error FollyError.BoostContext := by
    simp [probe_folly, hfmt, hgf, hlibs, hsc]
  exact ⟨hout, fun f h => by simp [hout] at h⟩

/-- An environment whose `--libs` output records two lib dirs, with an
empty filesystem. -/
def envBoostMissing : Env where
  fmtProbe := Except.ok ()
  gflagsProbe := Except.ok ()
  libsOutput := Except.ok (Utf8Out.utf8 "-L/a -L/b")
  cflagsOutput := Except.ok (Utf8Out.utf8 "")
  fsExists := fun _ _ => false

/-- Witness for C4. -/
theorem probe_folly_boost_context_error_witness :
    (probe_folly envBoostMissing).outcome =
      ProbeOutcome.error FollyError.BoostContext :=
  (probe_folly_boost_context_error envBoostMissing "-L/a -L/b"
    rfl rfl rfl (by decide)).1

/-! ## Step D lemmas and claims -/

theorem pathParent_eq_dropLast (l : List Component) (h : 2 ≤ l.length) :
    pathParent l = some l.dropLast := by
  cases l with
  | nil => simp at h
  | cons a t =>
    cases t with
    | nil => simp at h
    | cons b t2 => cases a <;> rfl

/-- A path under the SDK prefix has at least five components, so both
parent extractions succeed and peel one component each. -/
theorem sdk_guard_parents (path : List Component)
    (h1 : pathStartsWith path sdkPrefix = true) :
    pathParent path = some path.dropLast ∧
    pathParent path.dropLast = some path.dropLast.dropLast := by
  have hpre : sdkPrefix <+: path := by
    rw [pathStartsWith, List.isPrefixOf_iff_prefix] at h1
    exact h1
  obtain ⟨t, ht⟩ := hpre
  have h5 : sdkPrefix.length = 5 := by decide
  have hlen : 5 ≤ path.length := by
    rw [← ht, List.length_append, h5]
    omega
  refine ⟨pathParent_eq_dropLast path (by omega), ?_⟩
  exact pathParent_eq_dropLast _ (by rw [List.length_dropLast]; omega)

/-- Modelled from the spec: the include-directory contribution of one
compiler-flags token — an include-path token matching the recognized macOS
SDK prefix and suffix does NOT appear in the include-directory list; any
other include-path token appears verbatim; non-include tokens are
ignored. -/
def specIncludeDirsOfToken (arg : String) : List String :=
  if strStartsWith arg "-I" then
    let rest := strDrop arg 2
    if pathStartsWith (parseComponents rest) sdkPrefix &&
        pathEndsWith (parseComponents rest) usrIncludeSuffix then []
    else [rest]
  else []

/-- Modelled from the spec: the extra-compiler-flags contribution of one
compiler-flags token — a recognized SDK include token is converted to
exactly two extra flag tokens, the sysroot flag and the path with its
trailing two segments removed. -/
def specExtraCflagsOfToken (arg : String) : List String :=
  if strStartsWith arg "-I" then
    let path := parseComponents (strDrop arg 2)
    if pathStartsWith path sdkPrefix && pathEndsWith path usrIncludeSuffix then
      ["-isysroot", renderPath path.dropLast.dropLast]
    else []
  else []

theorem processCflagToken_eq_spec (arg : String) :
    processCflagToken arg =
      some (specIncludeDirsOfToken arg, specExtraCflagsOfToken arg) := by
  unfold processCflagToken specIncludeDirsOfToken specExtraCflagsOfToken
  by_cases hI : strStartsWith arg "-I" = true
  · simp only [hI, if_true]
    by_cases hg : (pathStartsWith (parseComponents (strDrop arg 2)) sdkPrefix &&
        pathEndsWith (parseComponents (strDrop arg 2)) usrIncludeSuffix) = true
    · have h1 : pathStartsWith (parseComponents (strDrop arg 2)) sdkPrefix = true :=
        (Bool.and_eq_true _ _).mp hg |>.1
      obtain ⟨hp1, hp2⟩ := sdk_guard_parents _ h1
      simp [hg, hp1, hp2]
    · simp [hg]
  · simp [hI]

/-- Claim C5: in Step D, a `-I` token under the recognized SDK prefix
ending in `usr/include` contributes exactly the two flags `-isysroot` and
the grandparent path to `other_cflags` and nothing to `include_paths`; any
other `-I` token contributes its path verbatim to `include_paths`, in
first-seen order with duplicates retained; other tokens contribute
nothing. Includes the spec's end-to-end compiler-flags scenario. -/
theorem stepD_include_parsing :
    (∀ toks : List String,
      stepD toks = some (toks.flatMap specIncludeDirsOfToken,
        toks.flatMap specExtraCflagsOfToken)) ∧
    stepD (splitWhitespace
        "-I/usr/local/include -I/Library/Developer/CommandLineTools/SDKs/MacOSX.sdk/usr/include") =
      some (["/usr/local/include"],
        ["-isysroot", "/Library/Developer/CommandLineTools/SDKs/MacOSX.sdk"]) := by
  refine ⟨?_, by decide⟩
  intro toks
  induction toks with
  | nil => rfl
  | cons t ts ih => simp [stepD, processCflagToken_eq_spec, ih]

/-- Claim C10: a path satisfying the SDK-rewrite guard always has two
successive parents, so the two `unwrap`s in the rewrite branch cannot
panic; indeed the Step D token processor is total. -/
theorem sdk_rewrite_unwraps_safe :
    (∀ rest : String,
      pathStartsWith (parseComponents rest) sdkPrefix = true →
      pathEndsWith (parseComponents rest) usrIncludeSuffix = true →
      (pathParent (parseComponents rest)).isSome = true ∧
      ((pathParent (parseComponents rest)).bind pathParent).isSome = true) ∧
    (∀ arg : String, (processCflagToken arg).isSome = true) := by
  constructor
  · intro rest h1 _h2
    obtain ⟨hp1, hp2⟩ := sdk_guard_parents _ h1
    rw [hp1]
    simp [hp2]
  · intro arg
    rw [processCflagToken_eq_spec]
    rfl

/-- Witness for C10 at the SDK include path of the spec's scenario. -/
theorem sdk_rewrite_unwraps_safe_witness :
    (pathParent (parseComponents
      "/Library/Developer/CommandLineTools/SDKs/MacOSX.sdk/usr/include")).isSome = true ∧
    ((pathParent (parseComponents
      "/Library/Developer/CommandLineTools/SDKs/MacOSX.sdk/usr/include")).bind
        pathParent).isSome = true :=
  sdk_rewrite_unwraps_safe.1
    "/Library/Developer/CommandLineTools/SDKs/MacOSX.sdk/usr/include"
    (by decide) (by decide)

/-! ## End-to-end and top-level claims -/

/-- Claim C7: the spec's end-to-end linker-flags scenario —
`/opt/folly/lib` is recorded in `lib_dirs` exactly once (from the `-L`
token; the bare path token yields a search directive, not a `lib_dirs`
entry), and `folly`, `glog`, `double-conversion` each get exactly one
link-lib directive. -/
theorem stepB_end_to_end :
    stepB (shlexTokens
        "-L/opt/folly/lib -lfolly -lglog /opt/folly/lib/libdouble-conversion.a") =
      (["/opt/folly/lib"],
       [Directive.linkLib "folly", Directive.linkLib "glog",
        Directive.linkSearch "/opt/folly/lib",
        Directive.linkLib "double-conversion"]) ∧
    (stepB (shlexTokens
        "-L/opt/folly/lib -lfolly -lglog /opt/folly/lib/libdouble-conversion.a")).1.count
      "/opt/folly/lib" = 1 ∧
    linkLibsOf (stepB (shlexTokens
        "-L/opt/folly/lib -lfolly -lglog /opt/folly/lib/libdouble-conversion.a")).2 =
      ["folly", "glog", "double-conversion"] :=
  ⟨by decide, by decide, by decide⟩

/-- Claim C8: `fmt` is probed first, then `gflags`, both in static mode; a
`fmt` failure aborts immediately with `FmtDependency` carrying the lookup
error, before any gflags probe, subprocess launch or directive emission;
a `gflags` failure aborts with `GflagsDependency` before Step B. -/
theorem probe_folly_aux_dependency_order :
    (∀ (env : Env) (e : Nat), env.fmtProbe = Except.error e →
      probe_folly env =
        ⟨ProbeOutcome.error (FollyError.FmtDependency e), [],
         [ExtCall.pkgProbe "fmt" true]⟩) ∧
    (∀ (env : Env) (e : Nat), env.fmtProbe = Except.ok () →
      env.gflagsProbe = Except.error e →
      probe_folly env =
        ⟨ProbeOutcome.error (FollyError.GflagsDependency e), [],
         [ExtCall.pkgProbe "fmt" true, ExtCall.pkgProbe "gflags" true]⟩) ∧
    (∀ env : Env, env.fmtProbe = Except.ok () →
      ∃ rest, (probe_folly env).calls =
        ExtCall.pkgProbe "fmt" true :: ExtCall.pkgProbe "gflags" true :: rest) := by
  refine ⟨?_, ?_, ?_⟩
  · intro env e h
    simp [probe_folly, h]
  · intro env e h1 h2
    simp [probe_folly, h1, h2]
  · intro env h1
    cases h2 : env.gflagsProbe with
    | error e => exact ⟨[], by simp [probe_folly, h1, h2]⟩
    | ok u =>
      cases h3 : env.libsOutput with
      | error e => exact ⟨[ExtCall.runPkgConfig libsArgs], by simp [probe_folly, h1, h2, h3]⟩
      | ok o =>
        cases o with
        | invalid =>
          exact ⟨[ExtCall.runPkgConfig libsArgs], by simp [probe_folly, h1, h2, h3]⟩
        | utf8 out =>
          by_cases hsc : (stepC env.fsExists false (stepB (shlexTokens out)).1).1 = true
          · cases h4 : env.cflagsOutput with
            | error e =>
              exact ⟨[ExtCall.runPkgConfig libsArgs, ExtCall.runPkgConfig cflagsArgs],
                by simp [probe_folly, h1, h2, h3, hsc, h4]⟩
            | ok o2 =>
              cases o2 with
              | invalid =>
                exact ⟨[ExtCall.runPkgConfig libsArgs, ExtCall.runPkgConfig cflagsArgs],
                  by simp [probe_folly, h1, h2, h3, hsc, h4]⟩
              | utf8 out2 =>
                cases h5 : stepD (splitWhitespace out2) with
                | none =>
                  exact ⟨[ExtCall.runPkgConfig libsArgs, ExtCall.runPkgConfig cflagsArgs],
                    by simp [probe_folly, h1, h2, h3, hsc, h4, h5]⟩
                | some v =>
                  exact ⟨[ExtCall.runPkgConfig libsArgs, ExtCall.runPkgConfig cflagsArgs],
                    by simp [probe_folly, h1, h2, h3, hsc, h4, h5]⟩
          · simp only [Bool.not_eq_true] at hsc
            exact ⟨[ExtCall.runPkgConfig libsArgs],
              by simp [probe_folly, h1, h2, h3, hsc]⟩

/-- An environment whose `fmt` probe fails with lookup error code 7. -/
def envFmtFail : Env where
  fmtProbe := Except.error 7
  gflagsProbe := Except.ok ()
  libsOutput := Except.ok (Utf8Out.utf8 "")
  cflagsOutput := Except.ok (Utf8Out.utf8 "")
  fsExists := fun _ _ => false

/-- Witness for C8. -/
theorem probe_folly_aux_dependency_order_witness :
    probe_folly envFmtFail =
      ⟨ProbeOutcome.error (FollyError.FmtDependency 7), [],
       [ExtCall.pkgProbe "fmt" true]⟩ :=
  probe_folly_aux_dependency_order.1 envFmtFail 7 rfl

theorem stepD_isSome (toks : List String) : (stepD toks).isSome = true := by
  induction toks with
  | nil => rfl
  | cons t ts ih =>
    cases h : stepD ts with
    | none => rw [h] at ih; simp at ih
    | some v => simp [stepD, processCflagToken_eq_spec, h]

/-- Claim C9: non-UTF-8 subprocess output makes `probe_folly` panic with
the `expect` message rather than return a `FollyError`; when both
subprocess outputs are valid UTF-8, no panic is reachable. -/
theorem probe_folly_utf8_panic :
    (∀ env : Env, env.fmtProbe = Except.ok () → env.gflagsProbe = Except.ok () →
      env.libsOutput = Except.ok Utf8Out.invalid →
      (probe_folly env).outcome = ProbeOutcome.panicked utf8PanicMsg) ∧
    (∀ (env : Env) (out : String), env.fmtProbe = Except.ok () →
      env.gflagsProbe = Except.ok () →
      env.libsOutput = Except.ok (Utf8Out.utf8 out) →
      (stepC env.fsExists false (stepB (shlexTokens out)).1).1 = true →
      env.cflagsOutput = Except.ok Utf8Out.invalid →
      (probe_folly env).outcome = ProbeOutcome.panicked utf8PanicMsg) ∧
    (∀ (env : Env) (out1 out2 msg : String),
      env.libsOutput = Except.ok (Utf8Out.utf8 out1) →
      env.cflagsOutput = Except.ok (Utf8Out.utf8 out2) →
      (probe_folly env).outcome ≠ ProbeOutcome.panicked msg) := by
  refine ⟨?_, ?_, ?_⟩
  · intro env h1 h2 h3
    simp [probe_folly, h1, h2, h3]
  · intro env out h1 h2 h3 hsc h4
    simp [probe_folly, h1, h2, h3, hsc, h4]
  · intro env out1 out2 msg h3 h4
    cases h1 : env.fmtProbe with
    | error e => simp [probe_folly, h1]
    | ok u =>
      cases h2 : env.gflagsProbe with
      | error e => simp [probe_folly, h1, h2]
      | ok u2 =>
        by_cases hsc : (stepC env.fsExists false (stepB (shlexTokens out1)).1).1 = true
        · cases h5 : stepD (splitWhitespace out2) with
          | none =>
            have := stepD_isSome (splitWhitespace out2)
            rw [h5] at this
            simp at this
          | some v => simp [probe_folly, h1, h2, h3, hsc, h4, h5]
        · simp only [Bool.not_eq_true] at hsc
          simp [probe_folly, h1, h2, h3, hsc]

/-- An environment whose `--libs` output is not valid UTF-8. -/
def envLibsInvalid : Env where
  fmtProbe := Except.ok ()
  gflagsProbe := Except.ok ()
  libsOutput := Except.ok Utf8Out.invalid
  cflagsOutput := Except.ok (Utf8Out.utf8 "")
  fsExists := fun _ _ => false

/-- Witness for C9. -/
theorem probe_folly_utf8_panic_witness :
    (probe_folly envLibsInvalid).outcome = ProbeOutcome.panicked utf8PanicMsg :=
  probe_folly_utf8_panic.1 envLibsInvalid rfl rfl rfl

end FindFolly
